import Mathlib

/-!
Shallow embedding of the Achievr cash-flow forecasting engine
(`src/utils/financial-utils.ts`, plus the scenario overlay of the
forecasting page variants), together with theorems settling the claims
about it.

Modelling conventions:
* Dates are modelled at day granularity as proleptic-Gregorian day numbers
  (`Int`, day 0 = 1970-01-01).  JS `Date` timestamps carry a time of day,
  but every comparison relevant to the embedded control flow is a plain
  order comparison that the day number preserves.
* The wall clock (`new Date()` with no argument) is sampled by the source
  functions; it is modelled as an explicit `now : Int` parameter.
* JS numbers (record amounts, balances) are modelled as `ℚ`.  `NaN` is not
  representable in this model, so `isNaN` guards in the source are
  vacuously false here and noted at each use site.
* Display-only string fields (the `description` strings, built with
  template literals and `Intl` currency formatting) are omitted from the
  `ForecastItem` model: the engine never reads them back.
-/

namespace Achievr

/-! ### Calendar model (JS `Date` arithmetic at day granularity) -/

/-- Day number of a civil date (proleptic Gregorian, months 1..12), with
day 0 = 1970-01-01.  Standard `days_from_civil` computation; used to model
the calendar arithmetic performed by JS `Date.setMonth`/`setFullYear`. -/
def daysFromCivil (y m d : Int) : Int :=
  let y2 := if m ≤ 2 then y - 1 else y
  let era := y2.fdiv 400
  let yoe := y2 - era * 400
  let mp := (m + 9) % 12
  let doy := (153 * mp + 2).fdiv 5 + d - 1
  let doe := yoe * 365 + yoe.fdiv 4 - yoe.fdiv 100 + doy
  era * 146097 + doe - 719468

/-- Civil date `(year, month, day)` of a day number; inverse of
`daysFromCivil`. -/
def civilFromDays (z : Int) : Int × Int × Int :=
  let z2 := z + 719468
  let era := z2.fdiv 146097
  let doe := z2 - era * 146097
  let yoe := (doe - doe.fdiv 1460 + doe.fdiv 36524 - doe.fdiv 146096).fdiv 365
  let y := yoe + era * 400
  let doy := doe - (365 * yoe + yoe.fdiv 4 - yoe.fdiv 100)
  let mp := (5 * doy + 2).fdiv 153
  let d := doy - (153 * mp + 2).fdiv 5 + 1
  let m := if mp < 10 then mp + 3 else mp - 9
  (if m ≤ 2 then y + 1 else y, m, d)

/-- JS `date.setDate(date.getDate() + n)`: plain day-number shift. -/
def addDays (z n : Int) : Int := z + n

/-- JS `date.setMonth(date.getMonth() + n)` at day granularity: move to the
requested calendar month (carrying into the year), keep the day-of-month
count, and let an overflowing day-of-month roll into the following month
(e.g. Jan 31 plus one month normalizes to Mar 3). -/
def addMonths (z n : Int) : Int :=
  let c := civilFromDays z
  let total := c.1 * 12 + (c.2.1 - 1) + n
  daysFromCivil (total.fdiv 12) (total.emod 12 + 1) 1 + (c.2.2 - 1)

/-- JS `date.setFullYear(date.getFullYear() + n)` at day granularity, with
the same day-of-month overflow normalization (Feb 29 to Mar 1 on a
non-leap target year). -/
def addYears (z n : Int) : Int :=
  let c := civilFromDays z
  daysFromCivil (c.1 + n) c.2.1 1 + (c.2.2 - 1)

/-- The `twoYearsAgo` reference date of `calculateNextOccurrence`:
`twoYearsAgo.setFullYear(twoYearsAgo.getFullYear() - 2)` applied to now. -/
def twoYearsAgo (now : Int) : Int := addYears now (-2)

/-! ### String normalization (frequency spellings) -/

/-- ASCII lower-casing of one character; models JS `toLowerCase` on the
ASCII frequency tags the engine compares against. -/
def lowerChar (c : Char) : Char :=
  if 'A' ≤ c ∧ c ≤ 'Z' then Char.ofNat (c.toNat + 32) else c

/-- JS `String.prototype.toLowerCase` restricted to ASCII. -/
def jsToLower (s : String) : String := ⟨s.data.map lowerChar⟩

def isSpaceChar (c : Char) : Bool := c = ' '

/-- JS `String.prototype.trim`, restricted to the space character (the
only whitespace occurring in the frequency spellings at issue). -/
def jsTrim (s : String) : String :=
  ⟨((s.data.dropWhile isSpaceChar).reverse.dropWhile isSpaceChar).reverse⟩

/-- Frequency normalization as performed inside `calculateNextOccurrence`
and `generateOccurrences`: case-fold, trim, and map the variant spellings
`"bi-weekly"` / `"bi weekly"` to `"biweekly"`. -/
def normalizeFrequency (s : String) : String :=
  let t := jsTrim (jsToLower s)
  if t = "bi-weekly" ∨ t = "bi weekly" then "biweekly" else t

/-- Frequency normalization as performed by the income/bill processors in
`generateCashFlowForecast`: `frequency?.toLowerCase().trim() || 'once'`
followed by the bi-weekly variant mapping.  A missing frequency is
modelled as the empty string (JS falsy). -/
def normalizeFrequencyOrOnce (s : String) : String :=
  let t := jsTrim (jsToLower s)
  let t1 := if t = "" then "once" else t
  if t1 = "bi-weekly" ∨ t1 = "bi weekly" then "biweekly" else t1

/-! ### Recurrence Calculator: `calculateNextOccurrence` -/

/-- The frequency `switch` of `calculateNextOccurrence` that advances a
date by one period: `some` of the advanced date for the seven recognized
cadences, `none` for the `default` branch. -/
def freqIncrement (f : String) (d : Int) : Option Int :=
  if f = "daily" then some (addDays d 1)
  else if f = "weekly" then some (addDays d 7)
  else if f = "biweekly" then some (addDays d 14)
  else if f = "monthly" then some (addMonths d 1)
  else if f = "quarterly" then some (addMonths d 3)
  else if f = "semiannually" then some (addMonths d 6)
  else if f = "annually" then some (addYears d 1)
  else none

/-- The fast-forward `switch` of `calculateNextOccurrence` taken when the
input date is more than two years old: reset the working date to now minus
one period; `none` models the `default` branch, which returns now. -/
def fastForwardBase (now : Int) (f : String) : Option Int :=
  if f = "daily" then some (addDays now (-1))
  else if f = "weekly" then some (addDays now (-7))
  else if f = "biweekly" then some (addDays now (-14))
  else if f = "monthly" then some (addMonths now (-1))
  else if f = "quarterly" then some (addMonths now (-3))
  else if f = "semiannually" then some (addMonths now (-6))
  else if f = "annually" then some (addYears now (-1))
  else none

/-- The increment `switch` inside the bounded fast-forward `while` loop of
`calculateNextOccurrence`; it has no `default` case, so an unrecognized
frequency leaves the date unchanged. -/
def loopIncrement (f : String) (d : Int) : Int := (freqIncrement f d).getD d

/-- The bounded fast-forward `while` loop of `calculateNextOccurrence`:
`while (nextDate <= now && iterations < maxIterations)`, advancing by one
period per iteration.  The fuel argument is the remaining iteration
budget; the result carries the final date and the number of iterations
performed. -/
def fastForwardLoop (now : Int) (f : String) : Nat → Int → Int × Nat
  | 0, d => (d, 0)
  | n + 1, d =>
    if d ≤ now then
      let r := fastForwardLoop now f n (loopIncrement f d)
      (r.1, r.2 + 1)
    else (d, 0)

/-- `calculateNextOccurrence(startDate, frequency)` from
`src/utils/financial-utils.ts`, with the sampled wall clock as the
explicit first argument.  Branch-for-branch translation: a future date is
returned unchanged; the frequency is normalized; a date more than two
years old is fast-forwarded to near now (returning now outright for an
unrecognized frequency); one period is applied (returning the original
date for an unrecognized frequency); if the result is still not in the
future, the bounded loop advances it at most 100 more times, falling back
to tomorrow when the ceiling is insufficient. -/
def calculateNextOccurrence (now startDate : Int) (frequency : String) : Int :=
  if now < startDate then startDate
  else
    let nf := normalizeFrequency frequency
    let fastForwarded : Option Int :=
      if startDate < twoYearsAgo now then fastForwardBase now nf
      else some startDate
    match fastForwarded with
    | none => now
    | some nd0 =>
      match freqIncrement nf nd0 with
      | none => startDate
      | some nd1 =>
        if nd1 ≤ now then
          let r := (fastForwardLoop now nf 100 nd1).1
          if r ≤ now then addDays now 1 else r
        else nd1

/-- The closed set of frequency tags recognized by the increment
switches. -/
def recognizedFrequency (f : String) : Prop :=
  f = "daily" ∨ f = "weekly" ∨ f = "biweekly" ∨ f = "monthly" ∨
    f = "quarterly" ∨ f = "semiannually" ∨ f = "annually"

instance : DecidablePred recognizedFrequency := fun f => by
  unfold recognizedFrequency; infer_instance

/-! ### Data model -/

/-- Output unit of the engine.  `type` keeps the source's string tags
(`"balance"`, `"income"`, `"bill"`, `"expense"`, `"adjustment"`,
`"marker"`).  The display-only `description` field is omitted (see module
docstring). -/
structure ForecastItem where
  itemId : String
  date : Int
  amount : ℚ
  category : String
  name : String
  type : String
  runningBalance : ℚ
deriving DecidableEq, Repr

/-- The record shape consumed by `generateOccurrences`: the callers pass a
record carrying `id`, `frequency`, `amount`, the date field selected by
`dateField` (always `'date'` at the call sites), plus `category`/`name`
read through the `(item as any)` casts.  An absent `category`/`name` is
the empty string (JS falsy). -/
structure OccSource where
  id : String
  frequency : String
  amount : ℚ
  date : Int
  category : String
  name : String
deriving DecidableEq, Repr

/-- An income record as read by the engine.  `id` empty models a missing
(JS-falsy) id, `date = none` a missing date, `frequency` empty a missing
frequency. -/
structure Income where
  id : String
  name : String
  amount : ℚ
  date : Option Int
  frequency : String
  isRecurring : Bool
  category : String
deriving DecidableEq, Repr

/-- A bill record as read by the engine. -/
structure Bill where
  id : String
  name : String
  amount : ℚ
  dueDate : Option Int
  frequency : String
  isRecurring : Bool
  isPaid : Bool
  autoPay : Bool
  category : String
deriving DecidableEq, Repr

/-- An expense record as read by the engine. -/
structure Expense where
  id : String
  name : String
  amount : ℚ
  date : Option Int
  category : String
deriving DecidableEq, Repr

/-- A one-off balance adjustment record. -/
structure BalanceAdjustment where
  id : String
  date : Option Int
  amount : ℚ
  reason : String
deriving DecidableEq, Repr

/-- JS `x || 'default'` on strings: the empty string is falsy. -/
def orDefault (s d : String) : String := if s = "" then d else s

/-! ### Occurrence Expander: `generateOccurrences` -/

/-- Kind tag attached to an expanded occurrence:
`item.amount >= 0 ? 'income' : 'expense'`. -/
def occurrenceType (q : ℚ) : String := if 0 ≤ q then "income" else "expense"

/-- One occurrence pushed by `generateOccurrences`:
`category || 'unknown'`, `name || 'Unnamed Item'`, no running balance yet
(modelled as 0, overwritten by the aggregator's final pass). -/
def mkOccurrence (item : OccSource) (d : Int) : ForecastItem :=
  ⟨item.id, d, item.amount, orDefault item.category "unknown",
    orDefault item.name "Unnamed Item", occurrenceType item.amount, 0⟩

/-- The anti-stall bump applied when `calculateNextOccurrence` returns the
current date unchanged: advance by the frequency's nominal period
(`biweekly` 14, `weekly` 7, otherwise 1 day). -/
def bumpDays (nf : String) : Int :=
  if nf = "biweekly" then 14 else if nf = "weekly" then 7 else 1

/-- The occurrence-generation `while` loop of `generateOccurrences`:
`while (currentDate <= endDate && count < MAX_OCCURRENCES)`.  The fuel is
the remaining occurrence budget (`MAX_OCCURRENCES - count`). -/
def occurrenceLoop (now endD : Int) (nf : String) (item : OccSource) :
    Nat → Int → List ForecastItem
  | 0, _ => []
  | fuel + 1, currentDate =>
    if currentDate ≤ endD then
      let next := calculateNextOccurrence now currentDate nf
      let next2 := if next = currentDate then currentDate + bumpDays nf else next
      mkOccurrence item currentDate :: occurrenceLoop now endD nf item fuel next2
    else []

/-- `generateOccurrences(item, dateField, days)` from
`src/utils/financial-utils.ts` (the `dateField` indirection is resolved to
the `date` field, as at every call site).  A non-recurring item (missing
or `'once'` frequency) yields its single occurrence; otherwise the walk
starts from the item's date — or from the next occurrence computed from
now when that date is past — and emits until the horizon end or the
`MAX_OCCURRENCES = min(days, 365)` ceiling; if nothing was emitted and the
horizon is non-empty, one fallback occurrence at the horizon start is
synthesized. -/
def generateOccurrences (now : Int) (item : OccSource) (days : Int) :
    List ForecastItem :=
  if item.frequency = "" ∨ item.frequency = "once" then
    [mkOccurrence item item.date]
  else
    let nf := normalizeFrequency item.frequency
    let maxOcc : Nat := (min days 365).toNat
    let startD := now
    let endD := addDays now days
    let firstDate :=
      if item.date < startD then calculateNextOccurrence now startD nf
      else item.date
    let occs := occurrenceLoop now endD nf item maxOcc firstDate
    if occs = [] ∧ startD ≤ endD then [mkOccurrence item startD] else occs

/-! ### Forecast Aggregator: `generateCashFlowForecast` -/

/-- The synthetic leading item carrying the current balance at now. -/
def initialBalanceItem (now : Int) (bal : ℚ) : ForecastItem :=
  ⟨"initial-balance", now, bal, "balance", "Current Balance", "balance", bal⟩

/-- The mid-point marker pushed for forecasts longer than 30 days. -/
def midPointMarker (now nd : Int) (bal : ℚ) : ForecastItem :=
  ⟨"mid-point-marker", addDays now (nd.fdiv 2), 0, "marker",
    "Forecast Mid-point", "marker", bal⟩

/-- The end-point marker pushed for forecasts longer than 1 day. -/
def endPointMarker (now nd : Int) (bal : ℚ) : ForecastItem :=
  ⟨"end-point-marker", addDays now nd, 0, "marker", "Forecast End",
    "marker", bal⟩

/-- Loop body chain of `safelyAddItems`: process the remaining source
records, appending each record's processed items to the forecast under the
`MAX_FORECAST_ITEMS` cap, stopping early when the forecast is full or more
than `MAX_FORECAST_ITEMS / 2` items have been contributed by this
collection.  A `null` result is modelled as `[]`. -/
def safelyAddGo {α : Type} (maxF : Nat) (proc : α → List ForecastItem) :
    List α → List ForecastItem → Nat → List ForecastItem
  | [], forecast, _ => forecast
  | item :: rest, forecast, processed =>
    let result := proc item
    let canAdd := min result.length (maxF - forecast.length)
    let forecast2 := forecast ++ result.take canAdd
    let processed2 := processed + canAdd
    if maxF ≤ forecast2.length then forecast2
    else if maxF / 2 < processed2 then forecast2
    else safelyAddGo maxF proc rest forecast2 processed2

/-- `safelyAddItems(items, processItem, itemType)` from
`generateCashFlowForecast`: skip the whole collection when the forecast is
already full, otherwise run the capped processing loop. -/
def safelyAddItems {α : Type} (maxF : Nat) (forecast : List ForecastItem)
    (items : List α) (proc : α → List ForecastItem) : List ForecastItem :=
  if maxF ≤ forecast.length then forecast
  else safelyAddGo maxF proc items forecast 0

/-- The income processor passed to `safelyAddItems` (the `isNaN(amount)`
guard is vacuous over ℚ).  Invalid records yield `null` (here `[]`); a
zero-amount income is skipped; a recurring income is expanded (long
forecasts) or looked ahead one occurrence (short forecasts, ≤ 14 days); a
non-recurring income is kept when inside the horizon or at most 7 days
past. -/
def processIncome (now nd : Int) (isShort : Bool) (income : Income) :
    List ForecastItem :=
  if income.id = "" then []
  else
    match income.date with
    | none => []
    | some incomeDate =>
      if income.amount = 0 then []
      else
        let nf := normalizeFrequencyOrOnce income.frequency
        let endD := addDays now nd
        if income.isRecurring ∧ nf ≠ "once" ∧ isShort = false then
          let startD := max now incomeDate
          generateOccurrences now
            ⟨income.id, nf, income.amount, startD, income.category,
              income.name⟩ nd
        else if income.isRecurring ∧ nf ≠ "once" ∧ isShort = true then
          let baseDate := if incomeDate < now then now else incomeDate
          let next := calculateNextOccurrence now baseDate nf
          if next ≤ endD then
            [⟨income.id, next, income.amount,
               orDefault income.category "Income",
               orDefault income.name "Income", "income", 0⟩]
          else []
        else
          if (now ≤ incomeDate ∧ incomeDate ≤ endD) ∨
              (incomeDate < now ∧ now - incomeDate < 7) then
            [⟨income.id, incomeDate, income.amount,
               orDefault income.category "Income",
               orDefault income.name "Income", "income", 0⟩]
          else []

/-- The bill processor passed to `safelyAddItems`: paid bills are skipped
outright; amounts are forced negative via `-Math.abs`; recurring bills are
expanded and re-tagged `type: 'bill'`; otherwise as for incomes. -/
def processBill (now nd : Int) (isShort : Bool) (bill : Bill) :
    List ForecastItem :=
  if bill.isPaid then []
  else if bill.id = "" then []
  else
    match bill.dueDate with
    | none => []
    | some dueDate =>
      let nf := normalizeFrequencyOrOnce bill.frequency
      let endD := addDays now nd
      if bill.isRecurring ∧ nf ≠ "once" ∧ isShort = false then
        let startD := max now dueDate
        (generateOccurrences now
            ⟨bill.id, nf, -|bill.amount|, startD, bill.category,
              bill.name⟩ nd).map
          fun it => { it with type := "bill" }
      else if bill.isRecurring ∧ nf ≠ "once" ∧ isShort = true then
        let baseDate := if dueDate < now then now else dueDate
        let next := calculateNextOccurrence now baseDate nf
        if next ≤ endD then
          [⟨bill.id, next, -|bill.amount|,
             orDefault bill.category "Expense",
             orDefault bill.name "Bill", "bill", 0⟩]
        else []
      else
        if (now ≤ dueDate ∧ dueDate ≤ endD) ∨
            (dueDate < now ∧ now - dueDate < 7) then
          [⟨bill.id, dueDate, -|bill.amount|,
             orDefault bill.category "Expense",
             orDefault bill.name "Bill", "bill", 0⟩]
        else []

/-- The expense processor passed to `safelyAddItems`: always treated as a
one-time negative item, kept when inside the horizon or at most 7 days
past. -/
def processExpense (now nd : Int) (expense : Expense) : List ForecastItem :=
  if expense.id = "" then []
  else
    match expense.date with
    | none => []
    | some expenseDate =>
      let endD := addDays now nd
      if (now ≤ expenseDate ∧ expenseDate ≤ endD) ∨
          (expenseDate < now ∧ now - expenseDate < 7) then
        [⟨expense.id, expenseDate, -|expense.amount|,
           orDefault expense.category "Expense",
           orDefault expense.name "Expense", "expense", 0⟩]
      else []

/-- The balance-adjustment processor passed to `safelyAddItems`. -/
def processAdjustment (adjustment : BalanceAdjustment) : List ForecastItem :=
  if adjustment.id = "" then []
  else
    match adjustment.date with
    | none => []
    | some date =>
      [⟨adjustment.id, date, adjustment.amount, "adjustment",
         orDefault adjustment.reason "Balance Adjustment", "adjustment", 0⟩]

/-- Stable insertion of an item into a date-sorted list: the new item goes
before the first strictly later item, i.e. after every earlier-or-equal
one.  Together with `sortByDate` this models the (stable) JS
`forecast.sort((a, b) => Date(a.date) - Date(b.date))`. -/
def insertByDate (x : ForecastItem) : List ForecastItem → List ForecastItem
  | [] => [x]
  | y :: l => if y.date < x.date then y :: insertByDate x l else x :: y :: l

/-- Stable sort by date (insertion sort), modelling the JS stable
`Array.prototype.sort` under the date comparator. -/
def sortByDate : List ForecastItem → List ForecastItem
  | [] => []
  | x :: xs => insertByDate x (sortByDate xs)

/-- One step of the running-balance scan: a `balance` item resets the
accumulator to its own amount, anything else adds its amount (the
`isNaN(item.amount)` guard is vacuous over ℚ). -/
def runningBalanceStep (acc : ℚ) (it : ForecastItem) : ℚ :=
  if it.type = "balance" then it.amount else acc + it.amount

/-- The single-pass running-balance stamping loop of
`generateCashFlowForecast`: each item's `runningBalance` is set to the
accumulator value after applying that item's own effect. -/
def stampRunningBalances (acc : ℚ) : List ForecastItem → List ForecastItem
  | [] => []
  | it :: rest =>
    let acc2 := runningBalanceStep acc it
    { it with runningBalance := acc2 } :: stampRunningBalances acc2 rest

/-- `generateCashFlowForecast(currentBalance, incomes, bills, expenses,
balanceAdjustments, days)` from `src/utils/financial-utils.ts`, with the
sampled wall clock explicit.  The `isNaN(currentBalance)` and
`isNaN(days)` normalizations are vacuous over ℚ/Int; the `catch`-and-
degrade paths never trigger in the total model. -/
def generateCashFlowForecast (now : Int) (currentBalance : ℚ)
    (incomes : List Income) (bills : List Bill) (expenses : List Expense)
    (balanceAdjustments : List BalanceAdjustment) (days : Int) :
    List ForecastItem :=
  let normalizedBalance := currentBalance
  let nd := if days ≤ 0 then 90 else min days 365
  let maxItems := (min (nd * 2) 200).toNat
  let validIncomes := incomes.take maxItems
  let validBills := bills.take maxItems
  let validExpenses := expenses.take maxItems
  let validAdjustments := balanceAdjustments.take 50
  let forecast0 := [initialBalanceItem now normalizedBalance]
  let maxForecastItems := (min (nd * 10) 2000).toNat
  let forecast1 :=
    if 1 < nd then
      (if 30 < nd then forecast0 ++ [midPointMarker now nd normalizedBalance]
       else forecast0) ++ [endPointMarker now nd normalizedBalance]
    else forecast0
  let isShort := nd ≤ 14
  let f2 := safelyAddItems maxForecastItems forecast1 validIncomes
    (processIncome now nd isShort)
  let f3 := safelyAddItems maxForecastItems f2 validBills
    (processBill now nd isShort)
  let f4 := safelyAddItems maxForecastItems f3 validExpenses
    (processExpense now nd)
  let f5 := safelyAddItems maxForecastItems f4 validAdjustments
    processAdjustment
  let sorted := sortByDate f5
  let trimmed := sorted.take (min sorted.length 365)
  stampRunningBalances normalizedBalance trimmed

/-! ### Scenario Overlay -/

/-- Caller-visible income collection after `applyScenario` from
`src/unnamed/part_007` returns.  The source spreads the cached array
(`[...incomesData]`), which copies the array but not the element records,
then runs `incomes.forEach(income => income.amount = income.amount * (1 +
incomeAdjustment / 100))` when the adjustment is nonzero — writing through
the shared references into the caller's records.  This definition gives
the state of the caller's records after the call. -/
def applyScenarioIncomesAfter (incomes : List Income)
    (incomeAdjustment : ℚ) : List Income :=
  if incomeAdjustment ≠ 0 then
    incomes.map fun i => { i with amount := i.amount * (1 + incomeAdjustment / 100) }
  else incomes

/-- Caller-visible bill collection after `applyScenario` from
`src/unnamed/part_007` returns: as for incomes, the `forEach` under
`expensesAdjustment !== 0` scales each shared bill record in place.  (The
synthetic savings bill is pushed onto the copied array only, so it is not
visible to the caller.) -/
def applyScenarioBillsAfter (bills : List Bill)
    (expensesAdjustment : ℚ) : List Bill :=
  if expensesAdjustment ≠ 0 then
    bills.map fun b => { b with amount := b.amount * (1 + expensesAdjustment / 100) }
  else bills

/-- Caller-visible expense collection after `applyScenario` from
`src/unnamed/part_007` returns; same mechanism as the bills. -/
def applyScenarioExpensesAfter (expenses : List Expense)
    (expensesAdjustment : ℚ) : List Expense :=
  if expensesAdjustment ≠ 0 then
    expenses.map fun e => { e with amount := e.amount * (1 + expensesAdjustment / 100) }
  else expenses

/-- The non-mutating scenario transform of the forecasting page
(`generateScenarioForecast` in `src/app/forecasting/page.tsx`): incomes
are rebuilt with object spread, leaving the baseline records intact. -/
def adjustedIncomes (incomes : List Income) (incomeAdjustment : ℚ) :
    List Income :=
  incomes.map fun i => { i with amount := i.amount * (1 + incomeAdjustment / 100) }

/-! ### Lemmas about the Recurrence Calculator -/

lemma freqIncrement_eq_some {f : String} (hf : recognizedFrequency f)
    (d : Int) : ∃ x, freqIncrement f d = some x := by
  rcases hf with h | h | h | h | h | h | h <;> subst h <;> exact ⟨_, rfl⟩

lemma fastForwardBase_eq_some {f : String} (hf : recognizedFrequency f)
    (now : Int) : ∃ x, fastForwardBase now f = some x := by
  rcases hf with h | h | h | h | h | h | h <;> subst h <;> exact ⟨_, rfl⟩

lemma freqIncrement_eq_none {f : String} (hf : ¬ recognizedFrequency f)
    (d : Int) : freqIncrement f d = none := by
  unfold recognizedFrequency at hf
  push_neg at hf
  obtain ⟨h1, h2, h3, h4, h5, h6, h7⟩ := hf
  simp [freqIncrement, h1, h2, h3, h4, h5, h6, h7]

lemma fastForwardBase_eq_none {f : String} (hf : ¬ recognizedFrequency f)
    (now : Int) : fastForwardBase now f = none := by
  unfold recognizedFrequency at hf
  push_neg at hf
  obtain ⟨h1, h2, h3, h4, h5, h6, h7⟩ := hf
  simp [fastForwardBase, h1, h2, h3, h4, h5, h6, h7]

lemma fastForwardLoop_count_le (now : Int) (f : String) :
    ∀ (fuel : Nat) (d : Int), (fastForwardLoop now f fuel d).2 ≤ fuel := by
  intro fuel
  induction fuel with
  | zero => intro d; simp [fastForwardLoop]
  | succ n ih =>
    intro d
    simp only [fastForwardLoop]
    split
    · exact Nat.succ_le_succ (ih _)
    · exact Nat.zero_le _

/-- The tail of `calculateNextOccurrence` after a successful increment
(`if (nextDate <= now) { bounded loop; tomorrow fallback }`) always lands
strictly after now. -/
lemma post_increment_gt (now : Int) (nf : String) (nd1 : Int) :
    now < (if nd1 ≤ now then
        (if (fastForwardLoop now nf 100 nd1).1 ≤ now then addDays now 1
          else (fastForwardLoop now nf 100 nd1).1)
      else nd1) := by
  unfold addDays
  split
  · split
    · omega
    · omega
  · omega

/-- For a start date not before now, the calculator never moves backwards
past now (it returns the date itself, now, or a strictly future date). -/
lemma calculateNextOccurrence_ge (now d : Int) (f : String) (h : now ≤ d) :
    now ≤ calculateNextOccurrence now d f := by
  unfold calculateNextOccurrence
  by_cases hlt : now < d
  · rw [if_pos hlt]; omega
  · rw [if_neg hlt]
    have hd : d = now := by omega
    by_cases hrec : recognizedFrequency (normalizeFrequency f)
    · by_cases hold : d < twoYearsAgo now
      · obtain ⟨b, hb⟩ := fastForwardBase_eq_some hrec now
        obtain ⟨x, hx⟩ := freqIncrement_eq_some hrec b
        simp only [if_pos hold, hb, hx]
        exact le_of_lt (post_increment_gt now _ x)
      · obtain ⟨x, hx⟩ := freqIncrement_eq_some hrec d
        simp only [if_neg hold, hx]
        exact le_of_lt (post_increment_gt now _ x)
    · by_cases hold : d < twoYearsAgo now
      · simp only [if_pos hold, fastForwardBase_eq_none hrec]
        omega
      · simp only [if_neg hold, freqIncrement_eq_none hrec]
        omega


/-- The calculator depends on the frequency string only through its
normalization. -/
lemma calculateNextOccurrence_congr (now d : Int) {f g : String}
    (h : normalizeFrequency f = normalizeFrequency g) :
    calculateNextOccurrence now d f = calculateNextOccurrence now d g := by
  unfold calculateNextOccurrence
  rw [h]

/-! ### Claims C7, C8, C9, C1 -/

/-- Claim C7, counterexample: for the input date 2020-01-01 (more than two
years before the reference now 2026-10-11) and the unrecognized frequency
string `"fortnightly"`, `calculateNextOccurrence` does not return the
input date unchanged — it returns now. -/
theorem calculateNextOccurrence_unrecognized_cex :
    calculateNextOccurrence (daysFromCivil 2026 10 11) (daysFromCivil 2020 1 1)
        "fortnightly" ≠ daysFromCivil 2020 1 1 ∧
      calculateNextOccurrence (daysFromCivil 2026 10 11) (daysFromCivil 2020 1 1)
        "fortnightly" = daysFromCivil 2026 10 11 := by
  constructor
  · decide
  · decide

/-- Claim C7, amended: for an input date and a frequency string that
normalizes outside the recognized set, `calculateNextOccurrence` returns
the input date unchanged (and never throws), unless the date is both on or
before now and more than two years old, in which case it returns now. -/
theorem calculateNextOccurrence_unrecognized (now d : Int) (f : String)
    (hf : ¬ recognizedFrequency (normalizeFrequency f)) :
    calculateNextOccurrence now d f =
      if d ≤ now ∧ d < twoYearsAgo now then now else d := by
  unfold calculateNextOccurrence
  by_cases hlt : now < d
  · rw [if_pos hlt, if_neg (by omega)]
  · rw [if_neg hlt]
    by_cases hold : d < twoYearsAgo now
    · simp only [if_pos hold, fastForwardBase_eq_none hf]
      rw [if_pos ⟨by omega, hold⟩]
    · simp only [if_neg hold, freqIncrement_eq_none hf]
      rw [if_neg (by tauto)]

/-- Witness for the amended C7 at a concrete input. -/
theorem calculateNextOccurrence_unrecognized_witness :
    calculateNextOccurrence 20737 20700 "fortnightly" =
      if (20700 : Int) ≤ 20737 ∧ (20700 : Int) < twoYearsAgo 20737 then 20737
      else 20700 :=
  calculateNextOccurrence_unrecognized 20737 20700 "fortnightly" (by decide)

/-- Claim C8: for a start date on or before now and a recognized
frequency, `calculateNextOccurrence` returns a date strictly after now,
and the iterative fast-forward loop performs at most its 100-iteration
ceiling (falling back to tomorrow inside the definition when the ceiling
is insufficient). -/
theorem calculateNextOccurrence_future_bounded (now d : Int) (f : String)
    (hd : d ≤ now) (hf : recognizedFrequency (normalizeFrequency f)) :
    now < calculateNextOccurrence now d f ∧
      ∀ start : Int,
        (fastForwardLoop now (normalizeFrequency f) 100 start).2 ≤ 100 := by
  refine ⟨?_, fun start => fastForwardLoop_count_le now _ 100 start⟩
  unfold calculateNextOccurrence
  rw [if_neg (by omega)]
  by_cases hold : d < twoYearsAgo now
  · obtain ⟨b, hb⟩ := fastForwardBase_eq_some hf now
    obtain ⟨x, hx⟩ := freqIncrement_eq_some hf b
    simp only [if_pos hold, hb, hx]
    exact post_increment_gt now _ x
  · obtain ⟨x, hx⟩ := freqIncrement_eq_some hf d
    simp only [if_neg hold, hx]
    exact post_increment_gt now _ x

/-- Witness for C8 at a concrete input: a daily source anchored a week
before now is advanced strictly past now. -/
theorem calculateNextOccurrence_future_bounded_witness :
    (20730 : Int) ≤ 20737 ∧
      (20737 : Int) < calculateNextOccurrence 20737 20730 "daily" :=
  ⟨by decide,
    (calculateNextOccurrence_future_bounded 20737 20730 "daily" (by decide)
      (by decide)).1⟩

/-- Claim C9: the spellings `"Bi-Weekly"`, `"bi weekly"` and `"biweekly"`
normalize identically, so `calculateNextOccurrence` treats them the same
on every input date. -/
theorem frequency_spelling_equiv (now d : Int) :
    calculateNextOccurrence now d "Bi-Weekly" =
        calculateNextOccurrence now d "bi weekly" ∧
      calculateNextOccurrence now d "bi weekly" =
        calculateNextOccurrence now d "biweekly" :=
  ⟨calculateNextOccurrence_congr now d (by decide),
    calculateNextOccurrence_congr now d (by decide)⟩

/-- Claim C1 (code bug): `applyScenario` of `src/unnamed/part_007`
advertises a deep copy but spreads only the array, so a 10 percent income
adjustment writes through to the caller's baseline record: the caller's
collection is not left unchanged (its single income's amount becomes 110
instead of 100). -/
theorem applyScenario_mutates_baseline :
    applyScenarioIncomesAfter
        [⟨"income-1", "Salary", 100, some 20740, "monthly", true, "Job"⟩] 10 ≠
      [⟨"income-1", "Salary", 100, some 20740, "monthly", true, "Job"⟩] ∧
      (applyScenarioIncomesAfter
          [⟨"income-1", "Salary", 100, some 20740, "monthly", true, "Job"⟩]
          10).map Income.amount = [110] := by
  constructor
  · simp only [applyScenarioIncomesAfter, List.map_cons, List.map_nil, ne_eq,
      List.cons.injEq, and_true, if_pos (by norm_num : (10 : ℚ) ≠ 0)]
    intro h
    have := congrArg Income.amount h
    norm_num at this
  · simp only [applyScenarioIncomesAfter, List.map_cons, List.map_nil,
      if_pos (by norm_num : (10 : ℚ) ≠ 0)]
    norm_num

/-! ### Lemmas about the Occurrence Expander and claims C5, C6 -/

lemma occurrenceLoop_length_le (now endD : Int) (nf : String)
    (item : OccSource) :
    ∀ (fuel : Nat) (cur : Int),
      (occurrenceLoop now endD nf item fuel cur).length ≤ fuel := by
  intro fuel
  induction fuel with
  | zero => intro cur; simp [occurrenceLoop]
  | succ n ih =>
    intro cur
    simp only [occurrenceLoop]
    split
    · simpa using Nat.succ_le_succ (ih _)
    · simp

lemma stampRunningBalances_length (acc : ℚ) (l : List ForecastItem) :
    (stampRunningBalances acc l).length = l.length := by
  induction l generalizing acc with
  | nil => rfl
  | cons a l ih => simp [stampRunningBalances, ih]

/-- Claim C5: the aggregator's ledger never exceeds 365 items, and the
occurrence walk for one source is capped at `min(days, 365)` emitted
occurrences for any horizon of at least one day. -/
theorem forecast_output_bounded :
    (∀ (now : Int) (bal : ℚ) (incomes : List Income) (bills : List Bill)
        (expenses : List Expense) (adjs : List BalanceAdjustment)
        (days : Int),
        (generateCashFlowForecast now bal incomes bills expenses adjs
            days).length ≤ 365) ∧
      ∀ (now : Int) (item : OccSource) (days : Int), (1 : Int) ≤ days →
        (generateOccurrences now item days).length ≤ (min days 365).toNat := by
  constructor
  · intro now bal incomes bills expenses adjs days
    unfold generateCashFlowForecast
    rw [stampRunningBalances_length, List.length_take]
    omega
  · intro now item days hdays
    unfold generateOccurrences
    split
    · simp only [List.length_cons, List.length_nil]
      omega
    · dsimp only
      split <;>
      · split
        · simp only [List.length_cons, List.length_nil]
          omega
        · exact occurrenceLoop_length_le _ _ _ _ _ _

/-- Witness for C5's occurrence bound at a concrete input. -/
theorem forecast_output_bounded_witness :
    (1 : Int) ≤ 28 ∧
      (generateOccurrences 20737 ⟨"i1", "biweekly", 100, 20737, "c", "n"⟩
          28).length ≤ (min (28 : Int) 365).toNat :=
  ⟨by decide,
    forecast_output_bounded.2 20737 ⟨"i1", "biweekly", 100, 20737, "c", "n"⟩
      28 (by decide)⟩

/-- Claim C6: for a valid recurring source (present id, recognized
frequency) and a horizon of at least one day, `generateOccurrences`
returns a non-empty sequence — when the walk emits nothing, the fallback
occurrence at the horizon start is synthesized. -/
theorem generateOccurrences_nonempty (now : Int) (item : OccSource)
    (days : Int) (hdays : (1 : Int) ≤ days)
    (hrec : recognizedFrequency (normalizeFrequency item.frequency))
    (hid : item.id ≠ "") :
    generateOccurrences now item days ≠ [] := by
  unfold generateOccurrences
  split
  · simp
  · dsimp only
    split <;>
    · split
      · simp
      · next hcond =>
        intro hocc
        exact hcond ⟨hocc, by unfold addDays; omega⟩

/-- Witness for C6 at a concrete input. -/
theorem generateOccurrences_nonempty_witness :
    (1 : Int) ≤ 28 ∧
      generateOccurrences 20737 ⟨"i1", "Bi-Weekly", 100, 20737, "c", "n"⟩
          28 ≠ [] :=
  ⟨by decide,
    generateOccurrences_nonempty 20737 ⟨"i1", "Bi-Weekly", 100, 20737, "c", "n"⟩
      28 (by decide) (by decide) (by decide)⟩

/-! ### Lemmas about sorting and claim C4 -/

lemma mem_insertByDate {x a : ForecastItem} :
    ∀ {l : List ForecastItem}, x ∈ insertByDate a l ↔ x = a ∨ x ∈ l := by
  intro l
  induction l with
  | nil => simp [insertByDate]
  | cons y l ih =>
    simp only [insertByDate]
    split
    · simp only [List.mem_cons, ih]
      tauto
    · simp only [List.mem_cons]

lemma mem_sortByDate {x : ForecastItem} :
    ∀ {l : List ForecastItem}, x ∈ sortByDate l ↔ x ∈ l := by
  intro l
  induction l with
  | nil => simp [sortByDate]
  | cons y l ih =>
    simp only [sortByDate, mem_insertByDate, List.mem_cons, ih]

lemma pairwise_insertByDate {a : ForecastItem} {l : List ForecastItem}
    (h : l.Pairwise (fun p q => p.date ≤ q.date)) :
    (insertByDate a l).Pairwise (fun p q => p.date ≤ q.date) := by
  induction l with
  | nil => simp [insertByDate]
  | cons y l ih =>
    rw [List.pairwise_cons] at h
    obtain ⟨hy, hl⟩ := h
    simp only [insertByDate]
    split
    · next hlt =>
      rw [List.pairwise_cons]
      refine ⟨fun z hz => ?_, ih hl⟩
      rcases mem_insertByDate.1 hz with rfl | hz
      · exact le_of_lt hlt
      · exact hy z hz
    · next hge =>
      rw [List.pairwise_cons]
      refine ⟨fun z hz => ?_, List.pairwise_cons.2 ⟨hy, hl⟩⟩
      rcases List.mem_cons.1 hz with rfl | hz
      · omega
      · exact le_trans (by omega) (hy z hz)

lemma pairwise_sortByDate :
    ∀ l : List ForecastItem,
      (sortByDate l).Pairwise (fun p q => p.date ≤ q.date)
  | [] => by simp [sortByDate]
  | x :: xs => by
    simp only [sortByDate]
    exact pairwise_insertByDate (pairwise_sortByDate xs)

lemma stampRunningBalances_map_date (acc : ℚ) (l : List ForecastItem) :
    (stampRunningBalances acc l).map ForecastItem.date
      = l.map ForecastItem.date := by
  induction l generalizing acc with
  | nil => rfl
  | cons a l ih => simp [stampRunningBalances, ih]

lemma stampRunningBalances_chain' {acc : ℚ} {l : List ForecastItem}
    (h : List.Chain' (fun p q => p.date ≤ q.date) l) :
    List.Chain' (fun p q => p.date ≤ q.date)
      (stampRunningBalances acc l) := by
  have h4 := (List.chain'_map ForecastItem.date).mpr h
  rw [← stampRunningBalances_map_date acc] at h4
  exact (List.chain'_map ForecastItem.date).mp h4

/-- Claim C4: every ledger produced by `generateCashFlowForecast` is
non-decreasing by date on adjacent pairs. -/
theorem forecast_dates_monotone (now : Int) (bal : ℚ)
    (incomes : List Income) (bills : List Bill) (expenses : List Expense)
    (adjs : List BalanceAdjustment) (days : Int) :
    List.Chain' (fun a b => a.date ≤ b.date)
      (generateCashFlowForecast now bal incomes bills expenses adjs days) := by
  unfold generateCashFlowForecast
  dsimp only
  exact stampRunningBalances_chain'
    (((pairwise_sortByDate _).sublist (List.take_sublist _ _)).chain')

/-! ### Claim C10: zero-amount incomes are skipped -/

lemma processIncome_zero (now nd : Int) (isShort : Bool) (income : Income)
    (h : income.amount = 0) : processIncome now nd isShort income = [] := by
  unfold processIncome
  split
  · rfl
  · cases income.date <;> rfl

lemma safelyAddGo_all_nil {α : Type} (maxF : Nat)
    (proc : α → List ForecastItem) :
    ∀ (items : List α), (∀ it ∈ items, proc it = []) →
      ∀ (fc : List ForecastItem) (p : Nat),
        safelyAddGo maxF proc items fc p = fc
  | [], _, fc, p => rfl
  | a :: rest, hp, fc, p => by
    simp only [safelyAddGo, hp a (List.mem_cons_self a rest),
      List.length_nil, Nat.zero_min, List.take_nil, List.append_nil,
      Nat.add_zero]
    split
    · rfl
    · split
      · rfl
      · exact safelyAddGo_all_nil maxF proc rest
          (fun it hit => hp it (List.mem_cons_of_mem a hit)) fc p

lemma safelyAddItems_all_nil {α : Type} (maxF : Nat)
    (fc : List ForecastItem) (items : List α)
    (proc : α → List ForecastItem) (hp : ∀ it ∈ items, proc it = []) :
    safelyAddItems maxF fc items proc = fc := by
  unfold safelyAddItems
  split
  · rfl
  · exact safelyAddGo_all_nil maxF proc items hp fc 0

lemma safelyAddItems_nil {α : Type} (maxF : Nat) (fc : List ForecastItem)
    (proc : α → List ForecastItem) :
    safelyAddItems maxF fc [] proc = fc := by
  unfold safelyAddItems safelyAddGo
  split <;> rfl

/-- Claim C10: an income whose amount is exactly 0 contributes nothing to
the forecast — a collection of zero-amount incomes produces the very same
ledger as no incomes at all, even when the records are otherwise valid. -/
theorem zero_amount_incomes_skipped (now : Int) (bal : ℚ)
    (incomes : List Income) (bills : List Bill) (expenses : List Expense)
    (adjs : List BalanceAdjustment) (days : Int)
    (h : ∀ i ∈ incomes, i.amount = 0) :
    generateCashFlowForecast now bal incomes bills expenses adjs days
      = generateCashFlowForecast now bal [] bills expenses adjs days := by
  unfold generateCashFlowForecast
  dsimp only
  rw [List.take_nil, safelyAddItems_nil,
    safelyAddItems_all_nil _ _ _ _
      (fun it hit =>
        processIncome_zero _ _ _ it (h it (List.mem_of_mem_take hit)))]

/-- Witness for C10 at a concrete input: one otherwise-valid zero-amount
income yields the same ledger as no incomes. -/
theorem zero_amount_incomes_skipped_witness :
    (∀ i ∈ [(⟨"i1", "n", 0, some 20740, "once", false, "c"⟩ : Income)],
        i.amount = 0) ∧
      generateCashFlowForecast 20737 1000
          [⟨"i1", "n", 0, some 20740, "once", false, "c"⟩] [] [] [] 90
        = generateCashFlowForecast 20737 1000 [] [] [] [] 90 :=
  ⟨by decide,
    zero_amount_incomes_skipped 20737 1000
      [⟨"i1", "n", 0, some 20740, "once", false, "c"⟩] [] [] [] 90
      (by decide)⟩

/-! ### Lemmas about the running-balance pass and item provenance -/

/-- Adjacent items of the stamped ledger satisfy the scan relation: each
item's stamped balance is the step function applied to its predecessor's
stamped balance and the item itself. -/
lemma stampRunningBalances_chain_rb :
    ∀ (l : List ForecastItem) (acc : ℚ),
      List.Chain'
        (fun p q => q.runningBalance = runningBalanceStep p.runningBalance q)
        (stampRunningBalances acc l)
  | [], _ => List.chain'_nil
  | [a], acc => by simp [stampRunningBalances]
  | a :: b :: l, acc => by
    have h2 := stampRunningBalances_chain_rb (b :: l) (runningBalanceStep acc a)
    simp only [stampRunningBalances] at h2 ⊢
    exact List.chain'_cons.2 ⟨rfl, h2⟩

/-- The first stamped item carries the step from the initial accumulator. -/
lemma stampRunningBalances_head (acc : ℚ) (a : ForecastItem)
    (l : List ForecastItem) :
    stampRunningBalances acc (a :: l)
      = { a with runningBalance := runningBalanceStep acc a }
          :: stampRunningBalances (runningBalanceStep acc a) l := rfl

lemma mem_stampRunningBalances {x : ForecastItem} :
    ∀ {l : List ForecastItem} {acc : ℚ}, x ∈ stampRunningBalances acc l →
      ∃ y ∈ l, x.type = y.type ∧ x.amount = y.amount := by
  intro l
  induction l with
  | nil => intro acc h; simp [stampRunningBalances] at h
  | cons a l ih =>
    intro acc h
    rcases List.mem_cons.1 h with rfl | h2
    · exact ⟨a, List.mem_cons_self _ _, rfl, rfl⟩
    · obtain ⟨y, hy, ht, ha⟩ := ih h2
      exact ⟨y, List.mem_cons_of_mem _ hy, ht, ha⟩

lemma mem_safelyAddGo {α : Type} {x : ForecastItem} (maxF : Nat)
    (proc : α → List ForecastItem) :
    ∀ (items : List α) (fc : List ForecastItem) (p : Nat),
      x ∈ safelyAddGo maxF proc items fc p → x ∈ fc ∨ ∃ it, x ∈ proc it
  | [], _, _, h => Or.inl h
  | a :: rest, fc, p, h => by
    simp only [safelyAddGo] at h
    split at h
    · rcases List.mem_append.1 h with h2 | h2
      · exact Or.inl h2
      · exact Or.inr ⟨a, List.mem_of_mem_take h2⟩
    · split at h
      · rcases List.mem_append.1 h with h2 | h2
        · exact Or.inl h2
        · exact Or.inr ⟨a, List.mem_of_mem_take h2⟩
      · rcases mem_safelyAddGo maxF proc rest _ _ h with h2 | h2
        · rcases List.mem_append.1 h2 with h3 | h3
          · exact Or.inl h3
          · exact Or.inr ⟨a, List.mem_of_mem_take h3⟩
        · exact Or.inr h2

lemma mem_safelyAddItems {α : Type} {x : ForecastItem} {maxF : Nat}
    {fc : List ForecastItem} {items : List α}
    {proc : α → List ForecastItem}
    (h : x ∈ safelyAddItems maxF fc items proc) :
    x ∈ fc ∨ ∃ it, x ∈ proc it := by
  unfold safelyAddItems at h
  split at h
  · exact Or.inl h
  · exact mem_safelyAddGo maxF proc items fc 0 h

/-- Every item emitted by the occurrence loop is an occurrence of the
walked source. -/
lemma mem_occurrenceLoop {x : ForecastItem} {now endD : Int} {nf : String}
    {item : OccSource} :
    ∀ {fuel : Nat} {cur : Int},
      x ∈ occurrenceLoop now endD nf item fuel cur →
        ∃ d, x = mkOccurrence item d := by
  intro fuel
  induction fuel with
  | zero => intro cur h; simp [occurrenceLoop] at h
  | succ n ih =>
    intro cur h
    simp only [occurrenceLoop] at h
    split at h
    · rcases List.mem_cons.1 h with rfl | h2
      · exact ⟨cur, rfl⟩
      · exact ih h2
    · simp at h

/-- Every item returned by `generateOccurrences` is an occurrence of the
source. -/
lemma mem_generateOccurrences {x : ForecastItem} {now : Int}
    {item : OccSource} {days : Int}
    (h : x ∈ generateOccurrences now item days) :
    ∃ d, x = mkOccurrence item d := by
  unfold generateOccurrences at h
  split at h
  · rcases List.mem_cons.1 h with rfl | h2
    · exact ⟨item.date, rfl⟩
    · simp at h2
  · dsimp only at h
    split at h <;>
    · split at h
      · rcases List.mem_cons.1 h with rfl | h2
        · exact ⟨now, rfl⟩
        · simp at h2
      · exact mem_occurrenceLoop h

lemma occurrenceType_ne_marker (q : ℚ) : occurrenceType q ≠ "marker" := by
  unfold occurrenceType
  split <;> decide

lemma processIncome_no_marker {x : ForecastItem} {now nd : Int}
    {isShort : Bool} {income : Income}
    (h : x ∈ processIncome now nd isShort income) : x.type ≠ "marker" := by
  unfold processIncome at h
  dsimp only at h
  repeat' split at h
  all_goals
    first
    | (obtain ⟨d, rfl⟩ := mem_generateOccurrences h
       exact occurrenceType_ne_marker _)
    | (rw [List.mem_singleton] at h
       subst h
       show ("income" : String) ≠ "marker"
       decide)
    | simp at h

lemma processBill_no_marker {x : ForecastItem} {now nd : Int}
    {isShort : Bool} {bill : Bill}
    (h : x ∈ processBill now nd isShort bill) : x.type ≠ "marker" := by
  unfold processBill at h
  dsimp only at h
  repeat' split at h
  all_goals
    first
    | (obtain ⟨y, hy, rfl⟩ := List.mem_map.1 h
       show ("bill" : String) ≠ "marker"
       decide)
    | (rw [List.mem_singleton] at h
       subst h
       show ("bill" : String) ≠ "marker"
       decide)
    | simp at h

lemma processExpense_no_marker {x : ForecastItem} {now nd : Int}
    {expense : Expense} (h : x ∈ processExpense now nd expense) :
    x.type ≠ "marker" := by
  unfold processExpense at h
  dsimp only at h
  repeat' split at h
  all_goals
    first
    | (rw [List.mem_singleton] at h
       subst h
       show ("expense" : String) ≠ "marker"
       decide)
    | simp at h

lemma processAdjustment_no_marker {x : ForecastItem}
    {adjustment : BalanceAdjustment} (h : x ∈ processAdjustment adjustment) :
    x.type ≠ "marker" := by
  unfold processAdjustment at h
  repeat' split at h
  all_goals
    first
    | (rw [List.mem_singleton] at h
       subst h
       show ("adjustment" : String) ≠ "marker"
       decide)
    | simp at h

/-- Every `marker` item in a generated ledger carries amount 0: the only
marker items are the two synthetic chart markers, and nothing downstream
changes an amount. -/
lemma forecast_marker_amount {x : ForecastItem} {now : Int} {bal : ℚ}
    {incomes : List Income} {bills : List Bill} {expenses : List Expense}
    {adjs : List BalanceAdjustment} {days : Int}
    (hx : x ∈ generateCashFlowForecast now bal incomes bills expenses adjs
        days)
    (ht : x.type = "marker") : x.amount = 0 := by
  unfold generateCashFlowForecast at hx
  dsimp only at hx
  set nd : Int := if days ≤ 0 then 90 else min days 365 with hnd
  obtain ⟨y, hy, hty, hay⟩ := mem_stampRunningBalances hx
  have hyt : y.type = "marker" := hty ▸ ht
  have hy2 := mem_sortByDate.1 (List.mem_of_mem_take hy)
  rcases mem_safelyAddItems hy2 with hy3 | ⟨it, hit⟩
  on_goal 2 => exact absurd hyt (processAdjustment_no_marker hit)
  rcases mem_safelyAddItems hy3 with hy4 | ⟨it, hit⟩
  on_goal 2 => exact absurd hyt (processExpense_no_marker hit)
  rcases mem_safelyAddItems hy4 with hy5 | ⟨it, hit⟩
  on_goal 2 => exact absurd hyt (processBill_no_marker hit)
  rcases mem_safelyAddItems hy5 with hy6 | ⟨it, hit⟩
  on_goal 2 => exact absurd hyt (processIncome_no_marker hit)
  rw [hay]
  split at hy6
  · rcases List.mem_append.1 hy6 with h7 | h7
    · split at h7
      · rcases List.mem_append.1 h7 with h8 | h8
        · rw [List.mem_singleton] at h8
          subst h8
          have hb : (initialBalanceItem now bal).type = "balance" := rfl
          rw [hb] at hyt
          exact absurd hyt (by decide)
        · rw [List.mem_singleton] at h8
          subst h8
          rfl
      · rw [List.mem_singleton] at h7
        subst h7
        have hb : (initialBalanceItem now bal).type = "balance" := rfl
        rw [hb] at hyt
        exact absurd hyt (by decide)
    · rw [List.mem_singleton] at h7
      subst h7
      rfl
  · rw [List.mem_singleton] at hy6
    subst hy6
    have hb : (initialBalanceItem now bal).type = "balance" := rfl
    rw [hb] at hyt
    exact absurd hyt (by decide)


/-- Claim C3: in every generated ledger, each item after the first whose
kind is neither `balance` nor `marker` has `runningBalance` equal to its
predecessor's plus its own amount; a `balance` item resets the accumulator
to its own amount; a `marker` item leaves the accumulator unchanged (its
amount is 0); each item is stamped with the accumulator after its own
effect. -/
theorem forecast_runningBalance_consistent (now : Int) (bal : ℚ)
    (incomes : List Income) (bills : List Bill) (expenses : List Expense)
    (adjs : List BalanceAdjustment) (days : Int) (i : Nat)
    (h : i + 1 < (generateCashFlowForecast now bal incomes bills expenses
        adjs days).length) :
    (((generateCashFlowForecast now bal incomes bills expenses adjs
            days).get ⟨i + 1, h⟩).type ≠ "balance" ∧
        ((generateCashFlowForecast now bal incomes bills expenses adjs
            days).get ⟨i + 1, h⟩).type ≠ "marker" →
      ((generateCashFlowForecast now bal incomes bills expenses adjs
          days).get ⟨i + 1, h⟩).runningBalance
        = ((generateCashFlowForecast now bal incomes bills expenses adjs
            days).get ⟨i, Nat.lt_of_succ_lt h⟩).runningBalance
          + ((generateCashFlowForecast now bal incomes bills expenses adjs
              days).get ⟨i + 1, h⟩).amount) ∧
    (((generateCashFlowForecast now bal incomes bills expenses adjs
            days).get ⟨i + 1, h⟩).type = "balance" →
      ((generateCashFlowForecast now bal incomes bills expenses adjs
          days).get ⟨i + 1, h⟩).runningBalance
        = ((generateCashFlowForecast now bal incomes bills expenses adjs
            days).get ⟨i + 1, h⟩).amount) ∧
    (((generateCashFlowForecast now bal incomes bills expenses adjs
            days).get ⟨i + 1, h⟩).type = "marker" →
      ((generateCashFlowForecast now bal incomes bills expenses adjs
          days).get ⟨i + 1, h⟩).runningBalance
        = ((generateCashFlowForecast now bal incomes bills expenses adjs
            days).get ⟨i, Nat.lt_of_succ_lt h⟩).runningBalance) := by
  have hchain :
      List.Chain'
        (fun p q => q.runningBalance = runningBalanceStep p.runningBalance q)
        (generateCashFlowForecast now bal incomes bills expenses adjs
          days) := by
    unfold generateCashFlowForecast
    dsimp only
    exact stampRunningBalances_chain_rb _ _
  have hrel :
      ((generateCashFlowForecast now bal incomes bills expenses adjs
          days).get ⟨i + 1, h⟩).runningBalance
        = runningBalanceStep
            (((generateCashFlowForecast now bal incomes bills expenses adjs
                days).get ⟨i, Nat.lt_of_succ_lt h⟩).runningBalance)
            ((generateCashFlowForecast now bal incomes bills expenses adjs
                days).get ⟨i + 1, h⟩) :=
    List.chain'_iff_get.1 hchain i (by omega)
  refine ⟨fun hnb => ?_, fun hb => ?_, fun hm => ?_⟩
  · rw [hrel]
    unfold runningBalanceStep
    rw [if_neg hnb.1, add_comm]
  · rw [hrel]
    unfold runningBalanceStep
    rw [if_pos hb]
  · have hnb : ((generateCashFlowForecast now bal incomes bills expenses
        adjs days).get ⟨i + 1, h⟩).type ≠ "balance" := by
      rw [hm]; decide
    have ha0 : ((generateCashFlowForecast now bal incomes bills expenses
        adjs days).get ⟨i + 1, h⟩).amount = 0 :=
      forecast_marker_amount (List.get_mem _ _ _) hm
    rw [hrel]
    unfold runningBalanceStep
    rw [if_neg hnb, ha0, add_zero]

/-- Concrete 90-day empty-input ledger used by the C3 witness. -/
def c3Ledger : List ForecastItem :=
  generateCashFlowForecast 20737 1000 [] [] [] [] 90

/-- Witness for C3 at a concrete input: the 90-day empty-input ledger is
`[balance, mid marker, end marker]`; the relation holds at index 1. -/
theorem forecast_runningBalance_consistent_witness :
    0 + 1 < c3Ledger.length ∧
      (((c3Ledger.get ⟨0 + 1, by decide⟩).type ≠ "balance" ∧
          (c3Ledger.get ⟨0 + 1, by decide⟩).type ≠ "marker" →
        (c3Ledger.get ⟨0 + 1, by decide⟩).runningBalance
          = (c3Ledger.get ⟨0, by decide⟩).runningBalance
            + (c3Ledger.get ⟨0 + 1, by decide⟩).amount) ∧
      ((c3Ledger.get ⟨0 + 1, by decide⟩).type = "balance" →
        (c3Ledger.get ⟨0 + 1, by decide⟩).runningBalance
          = (c3Ledger.get ⟨0 + 1, by decide⟩).amount) ∧
      ((c3Ledger.get ⟨0 + 1, by decide⟩).type = "marker" →
        (c3Ledger.get ⟨0 + 1, by decide⟩).runningBalance
          = (c3Ledger.get ⟨0, by decide⟩).runningBalance)) :=
  ⟨by decide,
    forecast_runningBalance_consistent 20737 1000 [] [] [] [] 90 0
      (by decide)⟩


/-! ### Lemmas about emitted dates and claim C2 -/

lemma bumpDays_pos (nf : String) : 1 ≤ bumpDays nf := by
  unfold bumpDays
  split
  · omega
  · split <;> omega

lemma occurrenceLoop_dates_ge (now endD : Int) (nf : String)
    (item : OccSource) :
    ∀ (fuel : Nat) (cur : Int), now ≤ cur →
      ∀ x ∈ occurrenceLoop now endD nf item fuel cur, now ≤ x.date := by
  intro fuel
  induction fuel with
  | zero => intro cur hcur x hx; simp [occurrenceLoop] at hx
  | succ n ih =>
    intro cur hcur x hx
    simp only [occurrenceLoop] at hx
    split at hx
    · rcases List.mem_cons.1 hx with rfl | hx2
      · exact hcur
      · refine ih _ ?_ x hx2
        split
        · have := bumpDays_pos nf
          omega
        · exact calculateNextOccurrence_ge now cur nf hcur
    · simp at hx

lemma generateOccurrences_dates_ge (now : Int) (item : OccSource)
    (days : Int) (hd : now ≤ item.date) :
    ∀ x ∈ generateOccurrences now item days, now ≤ x.date := by
  intro x hx
  unfold generateOccurrences at hx
  split at hx
  · rcases List.mem_cons.1 hx with rfl | h2
    · exact hd
    · simp at h2
  · dsimp only at hx
    split at hx
    · split at hx
      · rcases List.mem_cons.1 hx with rfl | h2
        · exact le_refl now
        · simp at h2
      · exact occurrenceLoop_dates_ge _ _ _ _ _ _
          (calculateNextOccurrence_ge now now _ le_rfl) x hx
    · split at hx
      · rcases List.mem_cons.1 hx with rfl | h2
        · exact le_refl now
        · simp at h2
      · exact occurrenceLoop_dates_ge _ _ _ _ _ _ hd x hx

set_option maxHeartbeats 1000000 in
lemma processIncome_dates_ge {now nd : Int} {isShort : Bool}
    {income : Income} (hinc : ∀ d, income.date = some d → now ≤ d) :
    ∀ x ∈ processIncome now nd isShort income, now ≤ x.date := by
  intro x hx
  unfold processIncome at hx
  dsimp only at hx
  split at hx
  · simp at hx
  · split at hx
    · simp at hx
    · rename_i d heq
      have hd := hinc d heq
      split at hx
      · simp at hx
      · split at hx
        · exact generateOccurrences_dates_ge now _ nd (le_max_left now d)
            x hx
        · split at hx
          · split at hx
            · split at hx
              · rw [List.mem_singleton] at hx
                subst hx
                show now ≤ calculateNextOccurrence now now
                  (normalizeFrequencyOrOnce income.frequency)
                exact calculateNextOccurrence_ge now now _ le_rfl
              · simp at hx
            · split at hx
              · rw [List.mem_singleton] at hx
                subst hx
                show now ≤ calculateNextOccurrence now d
                  (normalizeFrequencyOrOnce income.frequency)
                exact calculateNextOccurrence_ge now d _ hd
              · simp at hx
          · split at hx
            · rw [List.mem_singleton] at hx
              subst hx
              show now ≤ d
              exact hd
            · simp at hx

set_option maxHeartbeats 1000000 in
lemma processBill_dates_ge {now nd : Int} {isShort : Bool} {bill : Bill}
    (hbill : ∀ d, bill.dueDate = some d → now ≤ d) :
    ∀ x ∈ processBill now nd isShort bill, now ≤ x.date := by
  intro x hx
  unfold processBill at hx
  dsimp only at hx
  split at hx
  · simp at hx
  · split at hx
    · simp at hx
    · split at hx
      · simp at hx
      · rename_i d heq
        have hd := hbill d heq
        split at hx
        · obtain ⟨y, hy, rfl⟩ := List.mem_map.1 hx
          exact generateOccurrences_dates_ge now _ nd (le_max_left now d)
            y hy
        · split at hx
          · split at hx
            · split at hx
              · rw [List.mem_singleton] at hx
                subst hx
                show now ≤ calculateNextOccurrence now now
                  (normalizeFrequencyOrOnce bill.frequency)
                exact calculateNextOccurrence_ge now now _ le_rfl
              · simp at hx
            · split at hx
              · rw [List.mem_singleton] at hx
                subst hx
                show now ≤ calculateNextOccurrence now d
                  (normalizeFrequencyOrOnce bill.frequency)
                exact calculateNextOccurrence_ge now d _ hd
              · simp at hx
          · split at hx
            · rw [List.mem_singleton] at hx
              subst hx
              show now ≤ d
              exact hd
            · simp at hx

lemma processExpense_dates_ge {now nd : Int} {expense : Expense}
    (hexp : ∀ d, expense.date = some d → now ≤ d) :
    ∀ x ∈ processExpense now nd expense, now ≤ x.date := by
  intro x hx
  unfold processExpense at hx
  dsimp only at hx
  split at hx
  · simp at hx
  · split at hx
    · simp at hx
    · rename_i d heq
      have hd := hexp d heq
      split at hx
      · rw [List.mem_singleton] at hx
        subst hx
        show now ≤ d
        exact hd
      · simp at hx

lemma processAdjustment_dates_ge {now : Int}
    {adjustment : BalanceAdjustment}
    (hadj : ∀ d, adjustment.date = some d → now ≤ d) :
    ∀ x ∈ processAdjustment adjustment, now ≤ x.date := by
  intro x hx
  unfold processAdjustment at hx
  split at hx
  · simp at hx
  · split at hx
    · simp at hx
    · rename_i d heq
      rw [List.mem_singleton] at hx
      subst hx
      show now ≤ d
      exact hadj d heq


lemma safelyAddGo_shape {α : Type} (maxF : Nat)
    (proc : α → List ForecastItem) :
    ∀ (items : List α) (fc : List ForecastItem) (p : Nat),
      ∃ t, safelyAddGo maxF proc items fc p = fc ++ t ∧
        ∀ x ∈ t, ∃ it ∈ items, x ∈ proc it
  | [], fc, p => ⟨[], by simp [safelyAddGo], by simp⟩
  | a :: rest, fc, p => by
    simp only [safelyAddGo]
    split
    · exact ⟨_, rfl, fun x hx =>
        ⟨a, List.mem_cons_self a rest, List.mem_of_mem_take hx⟩⟩
    · split
      · exact ⟨_, rfl, fun x hx =>
          ⟨a, List.mem_cons_self a rest, List.mem_of_mem_take hx⟩⟩
      · obtain ⟨t, ht, hmem⟩ := safelyAddGo_shape maxF proc rest
          (fc ++ (proc a).take (min (proc a).length (maxF - fc.length)))
          (p + min (proc a).length (maxF - fc.length))
        refine ⟨(proc a).take (min (proc a).length (maxF - fc.length)) ++ t,
          ?_, ?_⟩
        · rw [ht, List.append_assoc]
        · intro x hx
          rcases List.mem_append.1 hx with h2 | h2
          · exact ⟨a, List.mem_cons_self a rest, List.mem_of_mem_take h2⟩
          · obtain ⟨it, hit, hx2⟩ := hmem x h2
            exact ⟨it, List.mem_cons_of_mem a hit, hx2⟩

lemma safelyAddItems_shape {α : Type} (maxF : Nat)
    (fc : List ForecastItem) (items : List α)
    (proc : α → List ForecastItem) :
    ∃ t, safelyAddItems maxF fc items proc = fc ++ t ∧
      ∀ x ∈ t, ∃ it ∈ items, x ∈ proc it := by
  unfold safelyAddItems
  split
  · exact ⟨[], by simp, by simp⟩
  · exact safelyAddGo_shape maxF proc items fc 0

lemma insertByDate_head (x : ForecastItem) (l : List ForecastItem)
    (h : ∀ y ∈ l, ¬ y.date < x.date) : insertByDate x l = x :: l := by
  cases l with
  | nil => rfl
  | cons y l =>
    unfold insertByDate
    rw [if_neg (h y (List.mem_cons_self _ _))]

/-- A stable sort keeps an element that is already first and minimal at
the head. -/
lemma sortByDate_cons_min (x : ForecastItem) (l : List ForecastItem)
    (h : ∀ y ∈ l, x.date ≤ y.date) :
    sortByDate (x :: l) = x :: sortByDate l := by
  show insertByDate x (sortByDate l) = _
  apply insertByDate_head
  intro y hy
  have := h y (mem_sortByDate.1 hy)
  omega


/-- Head of the sort/trim/stamp pipeline when the leading balance item is
minimal: it stays first and is stamped with its own amount. -/
lemma pipeline_head (now : Int) (bal : ℚ) (R : List ForecastItem)
    (hR : ∀ x ∈ R, now ≤ x.date) :
    (stampRunningBalances bal
        (List.take
          (min (sortByDate (initialBalanceItem now bal :: R)).length 365)
          (sortByDate (initialBalanceItem now bal :: R)))).head?
      = some (initialBalanceItem now bal) := by
  rw [sortByDate_cons_min _ _ (fun y hy => hR y hy)]
  have hlen :
      min (initialBalanceItem now bal :: sortByDate R).length 365 ≠ 0 := by
    simp only [List.length_cons]
    omega
  obtain ⟨k, hk⟩ := Nat.exists_eq_succ_of_ne_zero hlen
  rw [hk, List.take_succ_cons, stampRunningBalances_head,
    List.head?_cons]
  rfl

/-- Claim C2, counterexample: a valid balance adjustment dated 10 days
before now sorts ahead of the synthetic balance item, so the ledger does
not begin with the balance item. -/
theorem forecast_head_not_balance_cex :
    ((generateCashFlowForecast 20737 1000 [] [] []
          [⟨"a1", some 20727, 5, "r"⟩] 90).head?.map ForecastItem.itemId)
        ≠ some "initial-balance" ∧
      ((generateCashFlowForecast 20737 1000 [] [] []
          [⟨"a1", some 20727, 5, "r"⟩] 90).head?.map ForecastItem.itemId)
        = some "a1" := by
  constructor
  · decide
  · decide

/-- Claim C2, amended: the ledger always contains the synthetic balance
item dated now with the normalized balance, and it is the first element
whenever no other emitted item predates now — in particular whenever every
input record (income, bill, expense, adjustment) is dated on or after now.
(Past-dated one-time records and adjustments sort ahead of it, as the
counterexample shows.) -/
theorem forecast_head_is_balance (now : Int) (bal : ℚ)
    (incomes : List Income) (bills : List Bill) (expenses : List Expense)
    (adjs : List BalanceAdjustment) (days : Int)
    (hi : ∀ inc ∈ incomes, ∀ d, inc.date = some d → now ≤ d)
    (hb : ∀ b ∈ bills, ∀ d, b.dueDate = some d → now ≤ d)
    (he : ∀ e ∈ expenses, ∀ d, e.date = some d → now ≤ d)
    (ha : ∀ a ∈ adjs, ∀ d, a.date = some d → now ≤ d) :
    (generateCashFlowForecast now bal incomes bills expenses adjs
        days).head? = some (initialBalanceItem now bal) := by
  unfold generateCashFlowForecast
  dsimp only
  set nd : Int := if days ≤ 0 then 90 else min days 365 with hnd
  have hnd1 : (1 : Int) ≤ nd := by rw [hnd]; split <;> omega
  obtain ⟨r1, hr1, hd1⟩ :
      ∃ r1,
        (if 1 < nd then
          (if 30 < nd then
            [initialBalanceItem now bal] ++ [midPointMarker now nd bal]
           else [initialBalanceItem now bal])
            ++ [endPointMarker now nd bal]
         else [initialBalanceItem now bal])
          = initialBalanceItem now bal :: r1 ∧ ∀ x ∈ r1, now ≤ x.date := by
    have hfdiv : 0 ≤ nd.fdiv 2 := Int.fdiv_nonneg (by omega) (by norm_num)
    split
    · split
      · refine ⟨[midPointMarker now nd bal, endPointMarker now nd bal],
          rfl, ?_⟩
        intro x hx
        rcases List.mem_cons.1 hx with rfl | hx
        · show now ≤ addDays now (nd.fdiv 2)
          unfold addDays
          omega
        · rcases List.mem_cons.1 hx with rfl | hx
          · show now ≤ addDays now nd
            unfold addDays
            omega
          · simp at hx
      · refine ⟨[endPointMarker now nd bal], rfl, ?_⟩
        intro x hx
        rcases List.mem_cons.1 hx with rfl | hx
        · show now ≤ addDays now nd
          unfold addDays
          omega
        · simp at hx
    · exact ⟨[], rfl, by simp⟩
  rw [hr1]
  obtain ⟨t1, e1, m1⟩ := safelyAddItems_shape (min (nd * 10) 2000).toNat
    (initialBalanceItem now bal :: r1)
    (incomes.take (min (nd * 2) 200).toNat)
    (processIncome now nd (decide (nd ≤ 14)))
  rw [e1, List.cons_append]
  obtain ⟨t2, e2, m2⟩ := safelyAddItems_shape (min (nd * 10) 2000).toNat
    (initialBalanceItem now bal :: (r1 ++ t1))
    (bills.take (min (nd * 2) 200).toNat)
    (processBill now nd (decide (nd ≤ 14)))
  rw [e2, List.cons_append]
  obtain ⟨t3, e3, m3⟩ := safelyAddItems_shape (min (nd * 10) 2000).toNat
    (initialBalanceItem now bal :: (r1 ++ t1 ++ t2))
    (expenses.take (min (nd * 2) 200).toNat)
    (processExpense now nd)
  rw [e3, List.cons_append]
  obtain ⟨t4, e4, m4⟩ := safelyAddItems_shape (min (nd * 10) 2000).toNat
    (initialBalanceItem now bal :: (r1 ++ t1 ++ t2 ++ t3))
    (adjs.take 50) processAdjustment
  rw [e4, List.cons_append]
  apply pipeline_head
  intro x hx
  rcases List.mem_append.1 hx with hx | hx4
  on_goal 2 =>
    obtain ⟨it, hit, hx5⟩ := m4 x hx4
    exact processAdjustment_dates_ge (ha it (List.mem_of_mem_take hit))
      x hx5
  rcases List.mem_append.1 hx with hx | hx3
  on_goal 2 =>
    obtain ⟨it, hit, hx5⟩ := m3 x hx3
    exact processExpense_dates_ge (he it (List.mem_of_mem_take hit)) x hx5
  rcases List.mem_append.1 hx with hx | hx2
  on_goal 2 =>
    obtain ⟨it, hit, hx5⟩ := m2 x hx2
    exact processBill_dates_ge (hb it (List.mem_of_mem_take hit)) x hx5
  rcases List.mem_append.1 hx with hx | hx1
  on_goal 2 =>
    obtain ⟨it, hit, hx5⟩ := m1 x hx1
    exact processIncome_dates_ge (hi it (List.mem_of_mem_take hit)) x hx5
  exact hd1 x hx

/-- Witness for the amended C2 at a concrete input: one future-dated
income; the ledger head is the balance item. -/
theorem forecast_head_is_balance_witness :
    (generateCashFlowForecast 20737 1000
        [⟨"i1", "n", 50, some 20740, "once", false, "c"⟩] [] [] []
        90).head? = some (initialBalanceItem 20737 1000) :=
  forecast_head_is_balance 20737 1000
    [⟨"i1", "n", 50, some 20740, "once", false, "c"⟩] [] [] [] 90
    (by decide) (by decide) (by decide) (by decide)

end Achievr
